import Mathlib

/-!
Verification of the radiography-simulation pipeline.

Shallow embedding of the core computations of the repository:
erosion of a boolean voxel mask and marrow reclassification
(Approach 3, simulate_marrow.py), the attenuation law and layer
compositing (Approach 2 raycasting.py, Approach 3 render_voxelgrid.py,
Approach 1 combine_results.py), the nested-volume stack of the
continuous ray-march integrator (Approach 2, raycasting.py), the
per-ray early-exit fill loop and the point-in-mesh parity test of the
voxel grid builder (Approach 3, voxelgrid.py), and the density-lookup
error behaviour of the discrete integrator (Approach 3,
render_voxelgrid.py).
-/

namespace SimulateMarrow

/-- A 3D boolean mask, indexed as mask[i][j][k] like the numpy array in
simulate_marrow.py.  Indices outside the stated dimensions are never
consulted by the theorems below. -/
def Mask : Type := ℕ → ℕ → ℕ → Bool

/-- A 3D voxel grid of material-tag strings, as stored in voxel_grid.npy. -/
def Grid : Type := ℕ → ℕ → ℕ → String

/-- Number of voxel layers kept as the outer shell (simulate_marrow.py). -/
def SHELL_THICKNESS : ℕ := 1

/-- One erosion iteration of erode_mask in simulate_marrow.py for an
a × b × c mask: the inner region new_mask[1:-1, 1:-1, 1:-1] is the
conjunction of the six face-adjacent neighbours of the previous mask
(the slices eroded[0:-2,1:-1,1:-1], eroded[2:,1:-1,1:-1], and the four
analogous slices in the other two axes); everything else stays at the
np.zeros_like initialisation, i.e. false.  Note that the source takes
the conjunction of the six neighbours only: the centre cell itself is
not among the conjuncts. -/
def erodeOnce (a b c : ℕ) (m : Mask) : Mask := fun i j k =>
  if 1 ≤ i ∧ i + 1 < a ∧ 1 ≤ j ∧ j + 1 < b ∧ 1 ≤ k ∧ k + 1 < c then
    m (i - 1) j k && m (i + 1) j k &&
    m i (j - 1) k && m i (j + 1) k &&
    m i j (k - 1) && m i j (k + 1)
  else false

/-- erode_mask of simulate_marrow.py: the erosion iterated n times
(the for-loop over range(iterations); n = 0 returns the mask copy). -/
def erode_mask (a b c : ℕ) (m : Mask) : ℕ → Mask
  | 0 => m
  | n + 1 => erodeOnce a b c (erode_mask a b c m n)

/-- The subset order on masks restricted to in-range indices of an
a × b × c array: every true cell of the first mask is true in the second. -/
def subsetOn (a b c : ℕ) (m₁ m₂ : Mask) : Prop :=
  ∀ i j k, i < a → j < b → k < c → m₁ i j k = true → m₂ i j k = true

/-- The 3 × 3 × 3 mask that is true everywhere except at the centre
cell (1,1,1): the six face neighbours of the centre are all true. -/
def maskHole : Mask := fun i j k =>
  !(decide (i = 1) && decide (j = 1) && decide (k = 1))

/-- Claim C1, evaluation at the failing input: one erosion iteration of
the 3 × 3 × 3 mask that is false exactly at the centre yields a mask
that is true at the centre, so the eroded mask is not a subset of the
input and the true-set does not shrink with the iteration. -/
theorem erode_mask_not_subset_of_input :
    erode_mask 3 3 3 maskHole 1 1 1 1 = true ∧
    maskHole 1 1 1 = false ∧
    ¬ subsetOn 3 3 3 (erode_mask 3 3 3 maskHole 1) maskHole := by
  refine ⟨by decide, by decide, fun h => ?_⟩
  have hc := h 1 1 1 (by decide) (by decide) (by decide) (by decide)
  exact absurd hc (by decide)

/-- Claim C2, counterexample: a cell can be true after one erosion
iteration although the cell itself was false in the input (only the six
neighbours of the centre of maskHole are true, not the centre). -/
theorem erodeOnce_true_with_false_centre :
    erodeOnce 3 3 3 maskHole 1 1 1 = true ∧ maskHole 1 1 1 = false := by
  decide

/-- Claim C2 (amended): after one erosion iteration a cell is true only
if all six face-adjacent neighbours (±row, ±column, ±depth-slice) were
true in the input — the centre cell itself is not required — and every
border cell (any index at the extreme boundary of any axis) is false in
the output. -/
theorem erodeOnce_only_if_neighbours (a b c : ℕ) (m : Mask) (i j k : ℕ) :
    (erodeOnce a b c m i j k = true →
      m (i - 1) j k = true ∧ m (i + 1) j k = true ∧
      m i (j - 1) k = true ∧ m i (j + 1) k = true ∧
      m i j (k - 1) = true ∧ m i j (k + 1) = true) ∧
    (i = 0 ∨ i + 1 = a ∨ j = 0 ∨ j + 1 = b ∨ k = 0 ∨ k + 1 = c →
      erodeOnce a b c m i j k = false) := by
  constructor
  · intro h
    unfold erodeOnce at h
    split at h
    · simp only [Bool.and_eq_true] at h
      tauto
    · exact absurd h (by simp)
  · intro hb
    unfold erodeOnce
    split
    · rename_i hin
      omega
    · rfl

/-- The skeleton mask of simulate_marrow.py: voxel_grid == 'skeleton'. -/
def skeleton_mask (g : Grid) : Mask := fun i j k => g i j k == "skeleton"

/-- interior_mask of simulate_marrow.py: the skeleton mask eroded
SHELL_THICKNESS times. -/
def interior_mask (a b c : ℕ) (g : Grid) : Mask :=
  erode_mask a b c (skeleton_mask g) SHELL_THICKNESS

/-- output_grid of simulate_marrow.py: a copy of the voxel grid with
every cell of the eroded interior mask set to 'marrow'
(output_grid[interior_mask] = 'marrow'). -/
def output_grid (a b c : ℕ) (g : Grid) : Grid := fun i j k =>
  if interior_mask a b c g i j k then "marrow" else g i j k

/-- The 3 × 3 × 3 voxel grid tagged 'skeleton' everywhere except at the
centre cell (1,1,1), which is tagged 'muscle'. -/
def gridHole : Grid := fun i j k =>
  if i = 1 ∧ j = 1 ∧ k = 1 then "muscle" else "skeleton"

/-- Claim C3, counterexample: in the grid tagged 'skeleton' everywhere
except for a 'muscle' centre cell, the reclassification changes the
centre cell to 'marrow' although it was not tagged 'skeleton' in the
input. -/
theorem output_grid_changes_non_skeleton_cell :
    output_grid 3 3 3 gridHole 1 1 1 = "marrow" ∧
    gridHole 1 1 1 = "muscle" := by
  constructor
  · have hm : interior_mask 3 3 3 gridHole 1 1 1 = true := by decide
    unfold output_grid
    rw [hm]
    simp
  · rfl

/-- Claim C3 (amended): every grid cell whose tag differs between the
input voxel grid and the output grid is 'marrow' in the output and lies
in the eroded interior mask (but need not have been tagged 'skeleton'
in the input), and every cell where the eroded interior mask is false
keeps its original tag unchanged. -/
theorem output_grid_frame (a b c : ℕ) (g : Grid) (i j k : ℕ) :
    (output_grid a b c g i j k ≠ g i j k →
      output_grid a b c g i j k = "marrow" ∧
      interior_mask a b c g i j k = true) ∧
    (interior_mask a b c g i j k = false →
      output_grid a b c g i j k = g i j k) := by
  constructor
  · intro hne
    by_cases hm : interior_mask a b c g i j k = true
    · exact ⟨by unfold output_grid; rw [hm]; simp, hm⟩
    · rw [Bool.not_eq_true] at hm
      exact absurd (by unfold output_grid; rw [hm]; simp) hne
  · intro hm
    unfold output_grid
    rw [hm]
    simp

end SimulateMarrow

namespace Attenuation

/-- The shared attenuation law of raycasting.py line 111 and
render_voxelgrid.py line 44: intensity = 1.0 - exp(-total_density),
where total_density is the accumulated optical depth. -/
noncomputable def intensity (d : ℝ) : ℝ := 1 - Real.exp (-d)

/-- Claim C4: on optical depths ≥ 0 the attenuation law is strictly
increasing, it maps 0 to 0, its values lie in [0, 1), and it tends to 1
as the optical depth tends to infinity. -/
theorem intensity_attenuation_law :
    (∀ x y : ℝ, 0 ≤ x → x < y → intensity x < intensity y) ∧
    intensity 0 = 0 ∧
    (∀ d : ℝ, 0 ≤ d → 0 ≤ intensity d ∧ intensity d < 1) ∧
    Filter.Tendsto intensity Filter.atTop (nhds 1) := by
  refine ⟨fun x y _ hxy => ?_, ?_, fun d hd => ⟨?_, ?_⟩, ?_⟩
  · have h : Real.exp (-y) < Real.exp (-x) := Real.exp_lt_exp.mpr (by linarith)
    unfold intensity
    linarith
  · unfold intensity
    rw [neg_zero, Real.exp_zero]
    ring
  · have h : Real.exp (-d) ≤ 1 := Real.exp_le_one_iff.mpr (by linarith)
    unfold intensity
    linarith
  · have h : 0 < Real.exp (-d) := Real.exp_pos (-d)
    unfold intensity
    linarith
  · have h := Filter.Tendsto.const_sub (1 : ℝ) Real.tendsto_exp_neg_atTop_nhds_zero
    rw [sub_zero] at h
    exact h

end Attenuation

namespace CombineResults

/-- srgb_to_linear of combine_results.py: np.power(np.clip(x, 0, 1), 2.2). -/
noncomputable def srgb_to_linear (x : ℝ) : ℝ := (min (max x 0) 1) ^ (2.2 : ℝ)

/-- linear_to_srgb of combine_results.py: np.power(np.clip(x, 0, 1), 1/2.2). -/
noncomputable def linear_to_srgb (x : ℝ) : ℝ := (min (max x 0) 1) ^ ((1 : ℝ) / 2.2)

/-- The linear transmittance the compositing loop assigns to one encoded
layer: transmission = 1.0 - srgb_to_linear(img). -/
noncomputable def layer_transmittance (e : ℝ) : ℝ := 1 - srgb_to_linear e

/-- combined_transmission of combine_results.py: starting from
np.ones_like, the loop multiplies in the transmittance of each encoded
layer in order. -/
noncomputable def combined_transmission (es : List ℝ) : ℝ :=
  List.foldl (fun acc e => acc * layer_transmittance e) 1 es

/-- The final composite of combine_results.py: composite_linear =
1 - combined_transmission, re-encoded to display space. -/
noncomputable def composite (es : List ℝ) : ℝ :=
  linear_to_srgb (1 - combined_transmission es)

lemma foldl_mul_eq_mul_prod (f : ℝ → ℝ) (es : List ℝ) :
    ∀ a : ℝ, List.foldl (fun acc e => acc * f e) a es = a * (es.map f).prod := by
  induction es with
  | nil => intro a; simp
  | cons e es ih =>
    intro a
    simp only [List.foldl_cons, List.map_cons, List.prod_cons, ih (a * f e)]
    ring

lemma exp_neg_sum_neg_log (ts : List ℝ) (h : ∀ t ∈ ts, 0 < t) :
    Real.exp (-((ts.map (fun t => -Real.log t)).sum)) = ts.prod := by
  induction ts with
  | nil => simp
  | cons t ts ih =>
    have ht : 0 < t := h t (List.mem_cons_self t ts)
    have hts : ∀ u ∈ ts, 0 < u := fun u hu => h u (List.mem_cons_of_mem t hu)
    simp only [List.map_cons, List.sum_cons, List.prod_cons, neg_add, neg_neg]
    rw [Real.exp_add, Real.exp_log ht, ih hts]

/-- Claim C5: for layers whose linear transmittances t_i =
1 - srgb_to_linear(e_i) are positive, the compositing loop computes
exactly the product of the individual transmittances, the combined
absorption 1 - product equals the attenuation law applied to the sum of
the individual optical depths -ln t_i, and hence the re-encoded
composite equals the re-encoded single pass with that summed optical
depth. -/
theorem composite_equals_single_pass (es : List ℝ)
    (hpos : ∀ e ∈ es, 0 < layer_transmittance e) :
    combined_transmission es = (es.map layer_transmittance).prod ∧
    1 - combined_transmission es =
      Attenuation.intensity
        ((es.map (fun e => -Real.log (layer_transmittance e))).sum) ∧
    composite es =
      linear_to_srgb
        (Attenuation.intensity
          ((es.map (fun e => -Real.log (layer_transmittance e))).sum)) := by
  have hfold : combined_transmission es = (es.map layer_transmittance).prod := by
    unfold combined_transmission
    rw [foldl_mul_eq_mul_prod layer_transmittance es 1, one_mul]
  have hts : ∀ t ∈ es.map layer_transmittance, 0 < t := by
    intro t ht
    rcases List.mem_map.mp ht with ⟨e, he, rfl⟩
    exact hpos e he
  have hexp :
      Real.exp (-(((es.map layer_transmittance).map (fun t => -Real.log t)).sum)) =
        (es.map layer_transmittance).prod :=
    exp_neg_sum_neg_log (es.map layer_transmittance) hts
  have hmapmap :
      ((es.map layer_transmittance).map (fun t => -Real.log t)).sum =
        (es.map (fun e => -Real.log (layer_transmittance e))).sum := by
    rw [List.map_map]
    rfl
  have hkey : 1 - combined_transmission es =
      Attenuation.intensity
        ((es.map (fun e => -Real.log (layer_transmittance e))).sum) := by
    unfold Attenuation.intensity
    rw [hfold, ← hmapmap, hexp]
  exact ⟨hfold, hkey, by unfold composite; rw [hkey]⟩

/-- Claim C5, witness at the concrete input [0]: the fully absorbing
encoded layer 0 has linear transmittance 1 and the composition law holds
at it. -/
theorem composite_equals_single_pass_at_zero :
    combined_transmission [(0 : ℝ)] = ([(0 : ℝ)].map layer_transmittance).prod ∧
    1 - combined_transmission [(0 : ℝ)] =
      Attenuation.intensity
        (([(0 : ℝ)].map (fun e => -Real.log (layer_transmittance e))).sum) ∧
    composite [(0 : ℝ)] =
      linear_to_srgb
        (Attenuation.intensity
          (([(0 : ℝ)].map (fun e => -Real.log (layer_transmittance e))).sum)) := by
  refine composite_equals_single_pass [(0 : ℝ)] ?_
  intro e he
  rw [List.mem_singleton] at he
  subst he
  unfold layer_transmittance srgb_to_linear
  rw [max_self, min_eq_left (by norm_num : (0 : ℝ) ≤ 1),
    Real.zero_rpow (by norm_num : (2.2 : ℝ) ≠ 0)]
  norm_num

end CombineResults

namespace Raycasting

/-- DOT_THRESHOLD of raycasting.py: dot-product threshold 1e-6 below
which a hit counts as grazing. -/
def DOT_THRESHOLD : ℚ := 1 / 1000000

/-- One surface-crossing event the scene ray cast reports to the
per-pixel loop: the solid hit and the dot product of the ray direction
with the surface normal at the hit. -/
structure Hit where
  obj : ℕ
  dot : ℚ

/-- The stack update of the loop body of raycasting.py lines 101-108:
a hit with |dot| < DOT_THRESHOLD leaves the stack unchanged (grazing);
a hit with dot < 0 appends the solid (python list.append, entry); a hit
with dot ≥ 0 removes the first occurrence of the solid if present
(python list.remove, exit) and otherwise leaves the stack unchanged. -/
def processHit (stack : List ℕ) (h : Hit) : List ℕ :=
  if |h.dot| < DOT_THRESHOLD then stack
  else if h.dot < 0 then stack ++ [h.obj]
  else if h.obj ∈ stack then stack.erase h.obj
  else stack

/-- The inside_stack the loop has built after a list of hits, starting
from the empty stack initialised before the while loop. -/
def runRay (hits : List Hit) : List ℕ := List.foldl processHit [] hits

/-- The hit sequence a ray produces through a list of pairwise disjoint,
non-overlapping solids: for each solid in order, one entry hit with dot
product d.2.1 followed by one exit hit with dot product d.2.2. -/
def entryExitEvents (solids : List (ℕ × ℚ × ℚ)) : List Hit :=
  (solids.map (fun s => [Hit.mk s.1 s.2.1, Hit.mk s.1 s.2.2])).flatten

lemma processHit_entry (stack : List ℕ) (o : ℕ) (d : ℚ)
    (h : d ≤ -DOT_THRESHOLD) : processHit stack (Hit.mk o d) = stack ++ [o] := by
  have hth : (0 : ℚ) < DOT_THRESHOLD := by norm_num [DOT_THRESHOLD]
  have hneg : d < 0 := by linarith
  have hng : ¬ |d| < DOT_THRESHOLD := by
    rw [not_lt, abs_of_neg hneg]
    linarith
  simp [processHit, hng, hneg]

lemma processHit_exit_singleton (o : ℕ) (d : ℚ) (h : DOT_THRESHOLD ≤ d) :
    processHit [o] (Hit.mk o d) = [] := by
  have hth : (0 : ℚ) < DOT_THRESHOLD := by norm_num [DOT_THRESHOLD]
  have hnn : ¬ d < 0 := by linarith
  have hng : ¬ |d| < DOT_THRESHOLD := by
    rw [not_lt, abs_of_nonneg (by linarith)]
    linarith
  simp [processHit, hng, hnn]

lemma runRay_events_nil (solids : List (ℕ × ℚ × ℚ))
    (hd : ∀ s ∈ solids, s.2.1 ≤ -DOT_THRESHOLD ∧ DOT_THRESHOLD ≤ s.2.2) :
    runRay (entryExitEvents solids) = [] := by
  induction solids with
  | nil => rfl
  | cons s ss ih =>
    have hs := hd s (List.mem_cons_self s ss)
    have hss : ∀ t ∈ ss, t.2.1 ≤ -DOT_THRESHOLD ∧ DOT_THRESHOLD ≤ t.2.2 :=
      fun t ht => hd t (List.mem_cons_of_mem s ht)
    have hblock :
        List.foldl processHit [] [Hit.mk s.1 s.2.1, Hit.mk s.1 s.2.2] = [] := by
      simp only [List.foldl_cons, List.foldl_nil]
      rw [processHit_entry [] s.1 s.2.1 hs.1, List.nil_append,
        processHit_exit_singleton s.1 s.2.2 hs.2]
    unfold runRay entryExitEvents at *
    simp only [List.map_cons, List.flatten_cons, List.foldl_append, hblock]
    exact ih hss

/-- Claim C6: for a ray through pairwise disjoint, non-overlapping
solids — entry dot products at most -DOT_THRESHOLD, exit dot products
at least DOT_THRESHOLD, one entry followed by one exit per solid — the
inside stack is empty after all events; and for each solid, the stack
is empty just before its entry (in particular empty before the very
first entry), holds exactly that solid after its entry, and is empty
again after its exit, so entry pushes and exit removals alternate
one-to-one. -/
theorem inside_stack_balanced (solids : List (ℕ × ℚ × ℚ))
    (hd : ∀ s ∈ solids, s.2.1 ≤ -DOT_THRESHOLD ∧ DOT_THRESHOLD ≤ s.2.2) :
    runRay (entryExitEvents solids) = [] ∧
    ∀ pre s post, solids = pre ++ s :: post →
      runRay (entryExitEvents pre) = [] ∧
      runRay (entryExitEvents pre ++ [Hit.mk s.1 s.2.1]) = [s.1] ∧
      runRay (entryExitEvents (pre ++ [s])) = [] := by
  refine ⟨runRay_events_nil solids hd, fun pre s post heq => ?_⟩
  have hpre : ∀ t ∈ pre, t.2.1 ≤ -DOT_THRESHOLD ∧ DOT_THRESHOLD ≤ t.2.2 := by
    intro t ht
    exact hd t (heq ▸ List.mem_append_left _ ht)
  have hs : s.2.1 ≤ -DOT_THRESHOLD ∧ DOT_THRESHOLD ≤ s.2.2 :=
    hd s (heq ▸ List.mem_append_right _ (List.mem_cons_self s post))
  have h0 : runRay (entryExitEvents pre) = [] := runRay_events_nil pre hpre
  refine ⟨h0, ?_, ?_⟩
  · unfold runRay at *
    rw [List.foldl_append, h0, List.foldl_cons, List.foldl_nil,
      processHit_entry [] s.1 s.2.1 hs.1, List.nil_append]
  · have hps : ∀ t ∈ pre ++ [s], t.2.1 ≤ -DOT_THRESHOLD ∧ DOT_THRESHOLD ≤ t.2.2 := by
      intro t ht
      rcases List.mem_append.mp ht with h1 | h2
      · exact hpre t h1
      · rw [List.mem_singleton] at h2
        subst h2
        exact hs
    exact runRay_events_nil (pre ++ [s]) hps

/-- Claim C6, witness at a concrete input: two disjoint solids 0 and 1
entered with dot product -1 and exited with dot product 1; the stack is
empty at the end, empty before the entry of solid 1, holds [1] right
after its entry, and is empty again after its exit. -/
theorem inside_stack_balanced_two_solids :
    runRay (entryExitEvents [((0 : ℕ), (-1 : ℚ), (1 : ℚ)), (1, -1, 1)]) = [] ∧
    runRay (entryExitEvents [((0 : ℕ), (-1 : ℚ), (1 : ℚ))]) = [] ∧
    runRay (entryExitEvents [((0 : ℕ), (-1 : ℚ), (1 : ℚ))] ++
      [Hit.mk 1 (-1)]) = [1] ∧
    runRay (entryExitEvents ([((0 : ℕ), (-1 : ℚ), (1 : ℚ))] ++ [(1, -1, 1)])) = [] := by
  have h := inside_stack_balanced [((0 : ℕ), (-1 : ℚ), (1 : ℚ)), (1, -1, 1)]
    (by
      intro s hs
      rcases List.mem_cons.mp hs with h1 | h1
      · subst h1
        constructor <;> norm_num [DOT_THRESHOLD]
      · rw [List.mem_singleton] at h1
        subst h1
        constructor <;> norm_num [DOT_THRESHOLD])
  exact ⟨h.1, h.2 [((0 : ℕ), (-1 : ℚ), (1 : ℚ))] (1, -1, 1) [] rfl⟩

end Raycasting

namespace VoxelGrid

/-- MAX_EMPTY of voxelgrid.py: threshold for consecutive empty slices. -/
def MAX_EMPTY : ℕ := 200

/-- The per-ray loop state of the fill loop of voxelgrid.py lines
168-197: found_geometry, empty_count and exited_geometry. -/
structure RayState where
  found : Bool
  empty : ℕ
  exited : Bool
deriving DecidableEq

/-- The state just before the first depth slice of a ray:
found_geometry = False, empty_count = 0, exited_geometry = False. -/
def initState : RayState := RayState.mk false 0 false

/-- The state update the loop body performs after storing the tag of one
depth slice, with empty-run threshold e (MAX_EMPTY in the source): a
non-none tag sets found_geometry and resets empty_count; a none tag
after geometry increments empty_count and sets exited_geometry once the
count exceeds e; a none tag before any geometry changes nothing.  An
already exited state is frozen, matching the break at the loop head. -/
def stepState (e : ℕ) (s : RayState) (t : String) : RayState :=
  if s.exited then s
  else if t ≠ "none" then RayState.mk true 0 false
  else if s.found then RayState.mk s.found (s.empty + 1) (decide (e < s.empty + 1))
  else s

/-- The loop state after the slices of ts have been processed. -/
def runState (e : ℕ) (s : RayState) (ts : List String) : RayState :=
  List.foldl (stepState e) s ts

/-- The tags one ray of the voxel grid ends up with: the argument list
holds the tag sampling would give each slice in depth order; a slice
reached with exited_geometry set keeps the "none" the grid was
initialised with (the loop breaks), otherwise the sampled tag is stored
and the state updated. -/
def fillRay (e : ℕ) : RayState → List String → List String
  | _, [] => []
  | s, t :: ts =>
    if s.exited then "none" :: fillRay e s ts
    else t :: fillRay e (stepState e s t) ts

lemma stepState_of_exited (e : ℕ) (s : RayState) (t : String)
    (h : s.exited = true) : stepState e s t = s := by
  unfold stepState
  rw [if_pos h]

lemma fillRay_of_exited (e : ℕ) (s : RayState) (ts : List String)
    (h : s.exited = true) : fillRay e s ts = List.replicate ts.length "none" := by
  induction ts with
  | nil => rfl
  | cons t ts ih =>
    unfold fillRay
    rw [if_pos h, ih, List.length_cons, List.replicate_succ]

lemma fillRay_nil (e : ℕ) (s : RayState) : fillRay e s [] = [] := rfl

lemma fillRay_cons (e : ℕ) (s : RayState) (t : String) (ts : List String) :
    fillRay e s (t :: ts) =
      if s.exited = true then "none" :: fillRay e s ts
      else t :: fillRay e (stepState e s t) ts := rfl

lemma runState_cons (e : ℕ) (s : RayState) (t : String) (ts : List String) :
    runState e s (t :: ts) = runState e (stepState e s t) ts := rfl

lemma fillRay_append (e : ℕ) (ts : List String) :
    ∀ (s : RayState) (us : List String),
      fillRay e s (ts ++ us) = fillRay e s ts ++ fillRay e (runState e s ts) us := by
  induction ts with
  | nil => intro s us; rfl
  | cons t ts ih =>
    intro s us
    by_cases h : s.exited = true
    · calc fillRay e s ((t :: ts) ++ us)
          = "none" :: fillRay e s (ts ++ us) := by
            rw [List.cons_append, fillRay_cons, if_pos h]
        _ = "none" :: (fillRay e s ts ++ fillRay e (runState e s ts) us) := by
            rw [ih]
        _ = ("none" :: fillRay e s ts) ++ fillRay e (runState e s ts) us := rfl
        _ = fillRay e s (t :: ts) ++ fillRay e (runState e s (t :: ts)) us := by
            rw [fillRay_cons, if_pos h, runState_cons, stepState_of_exited e s t h]
    · rw [Bool.not_eq_true] at h
      have hne : ¬ s.exited = true := by rw [h]; exact Bool.false_ne_true
      calc fillRay e s ((t :: ts) ++ us)
          = t :: fillRay e (stepState e s t) (ts ++ us) := by
            rw [List.cons_append, fillRay_cons, if_neg hne]
        _ = t :: (fillRay e (stepState e s t) ts ++
              fillRay e (runState e (stepState e s t) ts) us) := by
            rw [ih]
        _ = fillRay e s (t :: ts) ++ fillRay e (runState e s (t :: ts)) us := by
            rw [fillRay_cons, if_neg hne, runState_cons]
            rfl

/-- The invariant tying exited_geometry to the other two state fields:
the flag is set exactly when geometry has been found and empty_count
exceeds the threshold. -/
def stateInv (e : ℕ) (s : RayState) : Prop :=
  s.exited = (s.found && decide (e < s.empty))

lemma stateInv_init (e : ℕ) : stateInv e initState := by
  unfold stateInv initState
  simp

lemma stateInv_step (e : ℕ) (s : RayState) (t : String) (h : stateInv e s) :
    stateInv e (stepState e s t) := by
  unfold stateInv stepState
  by_cases hex : s.exited = true
  · rw [if_pos hex]
    exact h
  · rw [Bool.not_eq_true] at hex
    rw [if_neg (by rw [hex]; exact Bool.false_ne_true)]
    by_cases ht : t ≠ "none"
    · rw [if_pos ht]
      simp
    · rw [if_neg ht]
      by_cases hf : s.found = true
      · rw [if_pos hf]
        simp [hf]
      · rw [Bool.not_eq_true] at hf
        rw [if_neg (by rw [hf]; exact Bool.false_ne_true)]
        exact h

lemma stateInv_run (e : ℕ) (s : RayState) (ts : List String) (h : stateInv e s) :
    stateInv e (runState e s ts) := by
  induction ts generalizing s with
  | nil => exact h
  | cons t ts ih =>
    unfold runState
    rw [List.foldl_cons]
    exact ih (stepState e s t) (stateInv_step e s t h)

/-- Claim C7: on any ray, split the depth slices as pre ++ post; if
after processing pre the loop state records that geometry has been
observed (found_geometry) and the running count of consecutive none
slices exceeds the threshold e (empty_count > e, MAX_EMPTY in the
source), then the loop stops sampling — the ray output on pre ++ post
is the output on pre followed by one "none" per remaining slice,
whatever tags sampling would have produced there. -/
theorem fillRay_early_exit (e : ℕ) (pre post : List String)
    (hfound : (runState e initState pre).found = true)
    (hcount : e < (runState e initState pre).empty) :
    fillRay e initState (pre ++ post) =
      fillRay e initState pre ++ List.replicate post.length "none" := by
  have hinv : stateInv e (runState e initState pre) :=
    stateInv_run e initState pre (stateInv_init e)
  have hex : (runState e initState pre).exited = true := by
    unfold stateInv at hinv
    rw [hinv, hfound, Bool.true_and, decide_eq_true_eq]
    exact hcount
  rw [fillRay_append, fillRay_of_exited e _ post hex]

/-- Claim C7, witness at a concrete input: with threshold 1, after the
slices ["body", "none", "none"] geometry has been seen and the empty
run has length 2 > 1, so the two further slices ["muscle", "skeleton"]
are left as "none" in the ray output. -/
theorem fillRay_early_exit_at_example :
    fillRay 1 initState (["body", "none", "none"] ++ ["muscle", "skeleton"]) =
      fillRay 1 initState ["body", "none", "none"] ++
        List.replicate (["muscle", "skeleton"] : List String).length "none" :=
  fillRay_early_exit 1 ["body", "none", "none"] ["muscle", "skeleton"]
    (by decide) (by decide)

end VoxelGrid

namespace Raycasting

/-- The per-solid density lookup of raycasting.py lines 93 and 100:
object_to_density.get(o, 0.0) — a total lookup that falls back to the
density 0.0 for a solid without an assigned coefficient. -/
def getDensity (m : ℕ → Option ℚ) (o : ℕ) : ℚ := (m o).getD 0

/-- The density of all solids currently on the inside stack:
sum(object_to_density.get(o, 0.0) for o in inside_stack). -/
def stackDensity (m : ℕ → Option ℚ) (stack : List ℕ) : ℚ :=
  (stack.map (getDensity m)).sum

end Raycasting

namespace RenderVoxelgrid

/-- DENSITY_MAPPING of render_voxelgrid.py as the partial map a python
dict is: the five configured tags have coefficients, every other tag
string is outside the dict and a lookup on it raises KeyError. -/
def DENSITY_MAPPING : String → Option ℚ := fun t =>
  if t = "skeleton" then some (1 / 2)
  else if t = "muscle" then some (1 / 20)
  else if t = "body" then some (1 / 50)
  else if t = "marrow" then some (1 / 10)
  else if t = "none" then some 0
  else none

/-- One dict lookup DENSITY_MAPPING[t]: the coefficient, or the raised
KeyError carrying the unknown tag. -/
def lookupDensity (t : String) : Except String ℚ :=
  match DENSITY_MAPPING t with
  | some d => Except.ok d
  | none => Except.error t

/-- raw_sum of render_voxelgrid.py line 42 for one pixel: the sum of the
density lookups over the depth-slice tags of that pixel, aborting with
the first KeyError like the python generator inside sum. -/
def rawSum : List String → Except String ℚ
  | [] => Except.ok 0
  | t :: ts =>
    match lookupDensity t with
    | Except.error e => Except.error e
    | Except.ok d =>
      match rawSum ts with
      | Except.error e => Except.error e
      | Except.ok r => Except.ok (d + r)

/-- One projection row: the optical depths raw_sum * step of the pixels
of the row, aborting at the first KeyError. -/
def rowDepths (step : ℚ) : List (List String) → Except String (List ℚ)
  | [] => Except.ok []
  | c :: cs =>
    match rawSum c with
    | Except.error e => Except.error e
    | Except.ok r =>
      match rowDepths step cs with
      | Except.error e => Except.error e
      | Except.ok rs => Except.ok (r * step :: rs)

/-- The optical-depth buffer of the integration loop of
render_voxelgrid.py lines 40-45 over the whole grid (rows of columns of
depth-slice tag lists): it aborts with the first KeyError, in which
case no output image is produced. -/
def projectionDepths (step : ℚ) : List (List (List String)) → Except String (List (List ℚ))
  | [] => Except.ok []
  | row :: rows =>
    match rowDepths step row with
    | Except.error e => Except.error e
    | Except.ok r =>
      match projectionDepths step rows with
      | Except.error e => Except.error e
      | Except.ok rs => Except.ok (r :: rs)

lemma rawSum_error_iff (ts : List String) :
    (∃ e, rawSum ts = Except.error e) ↔ ∃ t ∈ ts, DENSITY_MAPPING t = none := by
  induction ts with
  | nil =>
    constructor
    · rintro ⟨e, he⟩
      exact absurd he (by simp [rawSum])
    · rintro ⟨t, ht, _⟩
      exact absurd ht (List.not_mem_nil t)
  | cons t ts ih =>
    constructor
    · rintro ⟨e, he⟩
      unfold rawSum lookupDensity at he
      rcases hm : DENSITY_MAPPING t with _ | d
      · exact ⟨t, List.mem_cons_self t ts, hm⟩
      · rw [hm] at he
        rcases hs : rawSum ts with e2 | r
        · rcases ih.mp ⟨e2, hs⟩ with ⟨u, hu, hdu⟩
          exact ⟨u, List.mem_cons_of_mem t hu, hdu⟩
        · rw [hs] at he
          exact absurd he (by simp)
    · rintro ⟨u, hu, hdu⟩
      rcases List.mem_cons.mp hu with rfl | hu2
      · exact ⟨u, by unfold rawSum lookupDensity; rw [hdu]⟩
      · rcases ih.mpr ⟨u, hu2, hdu⟩ with ⟨e, he⟩
        unfold rawSum lookupDensity
        rcases hm : DENSITY_MAPPING t with _ | d
        · exact ⟨t, rfl⟩
        · rw [he]
          exact ⟨e, rfl⟩

lemma rowDepths_error_iff (step : ℚ) (cs : List (List String)) :
    (∃ e, rowDepths step cs = Except.error e) ↔
      ∃ c ∈ cs, ∃ t ∈ c, DENSITY_MAPPING t = none := by
  induction cs with
  | nil =>
    constructor
    · rintro ⟨e, he⟩
      exact absurd he (by simp [rowDepths])
    · rintro ⟨c, hc, _⟩
      exact absurd hc (List.not_mem_nil c)
  | cons c cs ih =>
    constructor
    · rintro ⟨e, he⟩
      unfold rowDepths at he
      rcases hs : rawSum c with e1 | r
      · rcases (rawSum_error_iff c).mp ⟨e1, hs⟩ with ⟨t, ht, hdt⟩
        exact ⟨c, List.mem_cons_self c cs, t, ht, hdt⟩
      · rw [hs] at he
        rcases hr : rowDepths step cs with e2 | rs
        · rcases ih.mp ⟨e2, hr⟩ with ⟨c2, hc2, t, ht, hdt⟩
          exact ⟨c2, List.mem_cons_of_mem c hc2, t, ht, hdt⟩
        · rw [hr] at he
          exact absurd he (by simp)
    · rintro ⟨c2, hc2, t, ht, hdt⟩
      rcases List.mem_cons.mp hc2 with rfl | hc3
      · rcases (rawSum_error_iff c2).mpr ⟨t, ht, hdt⟩ with ⟨e, he⟩
        unfold rowDepths
        rw [he]
        exact ⟨e, rfl⟩
      · rcases ih.mpr ⟨c2, hc3, t, ht, hdt⟩ with ⟨e, he⟩
        unfold rowDepths
        rcases hs : rawSum c with e1 | r
        · exact ⟨e1, rfl⟩
        · rw [he]
          exact ⟨e, rfl⟩

lemma projectionDepths_error_iff (step : ℚ) (rows : List (List (List String))) :
    (∃ e, projectionDepths step rows = Except.error e) ↔
      ∃ row ∈ rows, ∃ c ∈ row, ∃ t ∈ c, DENSITY_MAPPING t = none := by
  induction rows with
  | nil =>
    constructor
    · rintro ⟨e, he⟩
      exact absurd he (by simp [projectionDepths])
    · rintro ⟨row, hrow, _⟩
      exact absurd hrow (List.not_mem_nil row)
  | cons row rows ih =>
    constructor
    · rintro ⟨e, he⟩
      unfold projectionDepths at he
      rcases hs : rowDepths step row with e1 | r
      · rcases (rowDepths_error_iff step row).mp ⟨e1, hs⟩ with ⟨c, hc, t, ht, hdt⟩
        exact ⟨row, List.mem_cons_self row rows, c, hc, t, ht, hdt⟩
      · rw [hs] at he
        rcases hr : projectionDepths step rows with e2 | rs
        · rcases ih.mp ⟨e2, hr⟩ with ⟨row2, hrow2, c, hc, t, ht, hdt⟩
          exact ⟨row2, List.mem_cons_of_mem row hrow2, c, hc, t, ht, hdt⟩
        · rw [hr] at he
          exact absurd he (by simp)
    · rintro ⟨row2, hrow2, c, hc, t, ht, hdt⟩
      rcases List.mem_cons.mp hrow2 with rfl | hrow3
      · rcases (rowDepths_error_iff step row2).mpr ⟨c, hc, t, ht, hdt⟩ with ⟨e, he⟩
        unfold projectionDepths
        rw [he]
        exact ⟨e, rfl⟩
      · rcases ih.mpr ⟨row2, hrow3, c, hc, t, ht, hdt⟩ with ⟨e, he⟩
        unfold projectionDepths
        rcases hs : rowDepths step row with e1 | r
        · exact ⟨e1, rfl⟩
        · rw [he]
          exact ⟨e, rfl⟩

/-- Claim C8: the discrete grid integrator raises (and produces no
buffer, hence no output image) if and only if some depth-slice tag of
the voxel grid lies outside the domain of DENSITY_MAPPING; the
continuous integrator instead looks densities up with a fallback of 0,
so a solid without an assigned coefficient contributes density 0 and the
lookup never raises. -/
theorem density_lookup_error_semantics :
    (∀ (step : ℚ) (rows : List (List (List String))),
      (∃ e, projectionDepths step rows = Except.error e) ↔
        ∃ row ∈ rows, ∃ c ∈ row, ∃ t ∈ c, DENSITY_MAPPING t = none) ∧
    (∀ (m : ℕ → Option ℚ) (o : ℕ), m o = none → Raycasting.getDensity m o = 0) ∧
    (∀ (m : ℕ → Option ℚ) (stack : List ℕ) (o : ℕ), m o = none →
      Raycasting.stackDensity m (o :: stack) = Raycasting.stackDensity m stack) := by
  refine ⟨projectionDepths_error_iff, fun m o h => ?_, fun m stack o h => ?_⟩
  · unfold Raycasting.getDensity
    rw [h]
    rfl
  · unfold Raycasting.stackDensity
    rw [List.map_cons, List.sum_cons]
    unfold Raycasting.getDensity
    rw [h]
    simp

end RenderVoxelgrid

namespace VoxelGrid

/-- The 1e-4 offset of point_in_mesh_local in voxelgrid.py: both the
initial nudge of the ray origin away from the tested point and the
advance past each hit. -/
def OFFSET : ℚ := 1 / 10000

/-- The initial distance budget max_dist = 1e8 of point_in_mesh_local. -/
def MAX_DIST : ℚ := 100000000

/-- The while loop of point_in_mesh_local in voxelgrid.py, along the
fixed local +X direction parametrised by the 1-D ray coordinate: p is
the coordinate of the tested point, the oracle is obj.ray_cast from the
current origin with the current budget, returning the coordinate of the
nearest hit if any.  No hit ends the loop with the accumulated hit
count; a hit increments the count, advances the origin just past the
hit, and shrinks the budget by the distance from the tested point to
the hit, ending the loop if the budget is exhausted.  The fuel argument
only bounds the number of iterations so that the unbounded python while
loop can be stated; running out of fuel yields none. -/
def pimLoop (oracle : ℚ → ℚ → Option ℚ) (p : ℚ) :
    ℚ → ℚ → ℕ → ℕ → Option ℕ
  | _, _, _, 0 => none
  | origin, maxd, hits, fuel + 1 =>
    match oracle origin maxd with
    | none => some hits
    | some loc =>
      if maxd - |loc - p| ≤ 0 then some (hits + 1)
      else pimLoop oracle p (loc + OFFSET) (maxd - |loc - p|) (hits + 1) fuel

/-- point_in_mesh_local of voxelgrid.py: run the crossing-count loop
from origin p + OFFSET with budget MAX_DIST and classify the point as
inside exactly when the count of ray-surface crossings is odd
(return (hits % 2) == 1). -/
def point_in_mesh_local (oracle : ℚ → ℚ → Option ℚ) (p : ℚ)
    (fuel : ℕ) : Option Bool :=
  (pimLoop oracle p (p + OFFSET) MAX_DIST 0 fuel).map (fun hits => hits % 2 == 1)

lemma pimLoop_total (oracle : ℚ → ℚ → Option ℚ) (p : ℚ)
    (hor : ∀ o m loc, oracle o m = some loc → o ≤ loc) :
    ∀ (fuel : ℕ) (origin maxd : ℚ) (hits : ℕ),
      p + OFFSET ≤ origin → 0 < maxd → maxd * 10000 ≤ (fuel : ℚ) →
      ∃ n, pimLoop oracle p origin maxd hits fuel = some n := by
  intro fuel
  induction fuel with
  | zero =>
    intro origin maxd hits _ hpos hle
    exfalso
    rw [Nat.cast_zero] at hle
    nlinarith
  | succ f ih =>
    intro origin maxd hits horig hpos hle
    rcases hq : oracle origin maxd with _ | loc
    · exact ⟨hits, by unfold pimLoop; rw [hq]⟩
    · have hol : origin ≤ loc := hor origin maxd loc hq
      have hoff : (0 : ℚ) < OFFSET := by norm_num [OFFSET]
      have hlp : OFFSET ≤ loc - p := by linarith
      have habs : |loc - p| = loc - p := abs_of_pos (by linarith)
      by_cases hm : maxd - |loc - p| ≤ 0
      · refine ⟨hits + 1, ?_⟩
        unfold pimLoop
        rw [hq]
        show (if maxd - |loc - p| ≤ 0 then some (hits + 1)
          else pimLoop oracle p (loc + OFFSET) (maxd - |loc - p|) (hits + 1) f) =
            some (hits + 1)
        rw [if_pos hm]
      · push_neg at hm
        have hbound : (maxd - |loc - p|) * 10000 ≤ (f : ℚ) := by
          rw [habs]
          rw [Nat.cast_succ] at hle
          have hone : (1 : ℚ) ≤ (loc - p) * 10000 := by
            have : OFFSET * 10000 ≤ (loc - p) * 10000 := by linarith
            rw [OFFSET] at this
            linarith [this]
          nlinarith
        rcases ih (loc + OFFSET) (maxd - |loc - p|) (hits + 1)
            (by linarith) hm hbound with ⟨n, hn⟩
        refine ⟨n, ?_⟩
        unfold pimLoop
        rw [hq]
        show (if maxd - |loc - p| ≤ 0 then some (hits + 1)
          else pimLoop oracle p (loc + OFFSET) (maxd - |loc - p|) (hits + 1) f) =
            some n
        rw [if_neg (by linarith)]
        exact hn

/-- Claim C9: for every object (any hit oracle whose hits lie at or
beyond the query origin along the ray) and every point p, the parity
test terminates within the fuel bound 10^12 + 1 forced by the budget —
each hit advances the origin past the hit and shrinks the remaining
budget by at least OFFSET, and the loop stops when no hit occurs or the
budget reaches zero — and on termination point_in_mesh_local classifies
the point as inside exactly when the crossing count is odd. -/
theorem point_in_mesh_local_terminates (oracle : ℚ → ℚ → Option ℚ) (p : ℚ)
    (hor : ∀ o m loc, oracle o m = some loc → o ≤ loc) :
    ∃ hits, pimLoop oracle p (p + OFFSET) MAX_DIST 0 (10 ^ 12 + 1) = some hits ∧
      point_in_mesh_local oracle p (10 ^ 12 + 1) = some (hits % 2 == 1) := by
  have hfuel : MAX_DIST * 10000 ≤ ((10 ^ 12 + 1 : ℕ) : ℚ) := by
    rw [MAX_DIST]
    push_cast
    norm_num
  rcases pimLoop_total oracle p hor (10 ^ 12 + 1) (p + OFFSET) MAX_DIST 0
      (le_refl _) (by norm_num [MAX_DIST]) hfuel with ⟨n, hn⟩
  exact ⟨n, hn, by unfold point_in_mesh_local; rw [hn]; rfl⟩

/-- Claim C9, witness at a concrete input: for the empty scene oracle
(no surface is ever hit) and the point 0, the test terminates and
classifies by parity. -/
theorem point_in_mesh_local_terminates_no_hit :
    ∃ hits, pimLoop (fun _ _ => (none : Option ℚ)) 0 ((0 : ℚ) + OFFSET) MAX_DIST 0
        (10 ^ 12 + 1) = some hits ∧
      point_in_mesh_local (fun _ _ => (none : Option ℚ)) 0 (10 ^ 12 + 1) =
        some (hits % 2 == 1) :=
  point_in_mesh_local_terminates (fun _ _ => none) 0
    (fun o m loc h => absurd h (by simp))

/-- EPSILON of voxelgrid.py: small offset along the ray added to every
sample point to avoid self-intersections. -/
def EPSILON : ℚ := 1 / 100000

/-- SUB_STEPS of voxelgrid.py: sub-samples drawn per voxel slice. -/
def SUB_STEPS : ℕ := 2

/-- The slice classification of the fill loop of voxelgrid.py lines
175-188, along one ray parametrised by distance: every frac in the list
yields the sample distance base_dist + frac * step (plus the EPSILON
nudge), tagAt is get_tag at that distance, and the slice tag is the
highest-priority tag among the sub-samples (skeleton over muscle over
body over none). -/
def sliceTag (tagAt : ℚ → String) (base step : ℚ) (fracs : List ℚ) : String :=
  let tags := fracs.map (fun f => tagAt (base + f * step + EPSILON))
  if "skeleton" ∈ tags then "skeleton"
  else if "muscle" ∈ tags then "muscle"
  else if "body" ∈ tags then "body"
  else "none"

end VoxelGrid

namespace Determinism

/-- The discrete grid integrator of render_voxelgrid.py run with an
ambient random stream in scope: the script never draws from the random
module, so the stream argument is unused. -/
def projectionAmbient (step : ℚ) (rows : List (List (List String)))
    (_rng : ℕ → ℚ) : Except String (List (List ℚ)) :=
  RenderVoxelgrid.projectionDepths step rows

/-- The interior eroder of simulate_marrow.py run with an ambient
random stream in scope: the script never draws from the random module,
so the stream argument is unused. -/
def erodeAmbient (a b c : ℕ) (m : SimulateMarrow.Mask) (n : ℕ)
    (_rng : ℕ → ℚ) : SimulateMarrow.Mask :=
  SimulateMarrow.erode_mask a b c m n

/-- One slice classification of the voxel grid builder of voxelgrid.py
run with an ambient random stream: the loop draws SUB_STEPS sub-sample
fractions frac = random.random() from the stream. -/
def sliceTagAmbient (tagAt : ℚ → String) (base step : ℚ)
    (rng : ℕ → ℚ) : String :=
  VoxelGrid.sliceTag tagAt base step ((List.range VoxelGrid.SUB_STEPS).map rng)

/-- Claim C10: the discrete grid integrator and the interior eroder are
deterministic — on equal inputs their outputs are identical whatever
the ambient random stream holds, since they never draw from it — while
the voxel grid builder is not: there are a scene classification, a
slice position and two ambient streams for which the sampled slice tag
differs between the two runs. -/
theorem determinism_contrast :
    (∀ (step : ℚ) (rows : List (List (List String))) (r₁ r₂ : ℕ → ℚ),
      projectionAmbient step rows r₁ = projectionAmbient step rows r₂) ∧
    (∀ (a b c n : ℕ) (m : SimulateMarrow.Mask) (r₁ r₂ : ℕ → ℚ),
      erodeAmbient a b c m n r₁ = erodeAmbient a b c m n r₂) ∧
    (∃ (tagAt : ℚ → String) (base step : ℚ) (r₁ r₂ : ℕ → ℚ),
      sliceTagAmbient tagAt base step r₁ ≠ sliceTagAmbient tagAt base step r₂) := by
  refine ⟨fun _ _ _ _ => rfl, fun _ _ _ _ _ _ _ => rfl, ?_⟩
  refine ⟨fun x => if x < 1 then "skeleton" else "none", 0, 2,
    fun _ => 0, fun _ => 1, ?_⟩
  have h1 : sliceTagAmbient (fun x => if x < 1 then "skeleton" else "none")
      0 2 (fun _ => 0) = "skeleton" := by
    unfold sliceTagAmbient VoxelGrid.sliceTag
    norm_num [VoxelGrid.SUB_STEPS, VoxelGrid.EPSILON, List.range_succ]
  have h2 : sliceTagAmbient (fun x => if x < 1 then "skeleton" else "none")
      0 2 (fun _ => 1) = "none" := by
    unfold sliceTagAmbient VoxelGrid.sliceTag
    norm_num [VoxelGrid.SUB_STEPS, VoxelGrid.EPSILON, List.range_succ]
    decide
  rw [h1, h2]
  simp

end Determinism
